import Mathlib

/-!
Shallow embedding of the dialogue parser and script generator from
`src/src/App.tsx` (the `dpdg` repository).  Strings are modelled as
`List Char`; JavaScript's ASCII-relevant behaviour of `trim`,
`toLowerCase` and the regexes `[A-Za-z]+` and `^([A-Za-z]+): (.*)$`
is reproduced on that representation.
-/

namespace Dpdg

/-- Strings are lists of characters. -/
abbrev Str := List Char

/-- `Character` record from `App.tsx` (lines 24–28). -/
structure Character where
  name : Str
  scriptPrefix : Str
  contentPrefix : Str
deriving DecidableEq, Repr

/-- `Dialog` record from `App.tsx` (lines 30–34). -/
structure Dialog where
  user : Character
  span : Int
  content : Str
deriving DecidableEq, Repr

/-- `ScriptData` record from `App.tsx` (lines 36–40). -/
structure ScriptData where
  name : Str
  initialCounter : Int
  initialSpan : Int
deriving DecidableEq, Repr

/-- The regex character class `[A-Za-z]`. -/
def isAsciiAlpha (c : Char) : Bool :=
  ('A' ≤ c && c ≤ 'Z') || ('a' ≤ c && c ≤ 'z')

/-- JavaScript `toLowerCase` restricted to ASCII, applied characterwise. -/
def toLowerStr (s : Str) : Str := s.map Char.toLower

/-- JavaScript `String.prototype.trim`: drop whitespace from both ends. -/
def trimStr (s : Str) : Str :=
  ((s.dropWhile Char.isWhitespace).reverse.dropWhile Char.isWhitespace).reverse

/-- Number of maximal runs of `[A-Za-z]+` characters, i.e. the length of
the JavaScript match list `line.match(/[A-Za-z]+/g)`.  The boolean flag
records whether the previous character was alphabetic. -/
def countAlphaRuns (prev : Bool) : Str → Nat
  | [] => 0
  | c :: cs =>
    (if isAsciiAlpha c && !prev then 1 else 0) + countAlphaRuns (isAsciiAlpha c) cs

/-- `getSpanFromLine` (App.tsx lines 83–88): trim the line, count the
maximal alphabetic runs, multiply by the character multiplier 4
(`occurences ? occurences.length * 4 : 0`; an empty match list gives 0). -/
def getSpanFromLine (line : Str) : Int :=
  (countAlphaRuns false (trimStr line) * 4 : Nat)

/-- The regex match `line.match(/^([A-Za-z]+): (.*)$/)` (App.tsx line 100):
a non-empty maximal alphabetic prefix, the literal `": "`, then the rest of
the line.  `.` does not match a newline and `$` anchors at the end of the
string, so a line containing a newline after the tag never matches. -/
def matchSpeaker (line : Str) : Option (Str × Str) :=
  match line.dropWhile isAsciiAlpha with
  | ':' :: ' ' :: content =>
    if (line.takeWhile isAsciiAlpha).isEmpty || content.contains '\n' then none
    else some (line.takeWhile isAsciiAlpha, content)
  | _ => none

/-- Roster lookup (App.tsx line 108): first user whose lower-cased
`scriptPrefix` equals the already lower-cased speaker tag. -/
def findUser (users : List Character) (ciSpeaker : Str) : Option Character :=
  users.find? (fun user => toLowerStr user.scriptPrefix == ciSpeaker)

/-- Diagnostic emitted by `console.error` for an unknown speaker
(App.tsx line 112). -/
def unknownSpeakerMsg (ciSpeaker : Str) : Str :=
  "Unknown speaker: ".toList ++ ciSpeaker

/-- Diagnostic emitted by `console.error` for a line that precedes any
recognized speaker line (App.tsx line 118). -/
def invalidLineMsg (line : Str) : Str :=
  "Invalid dialogue line: ".toList ++ line

/-- `dialogues[dialogues.length - 1].content += '\n' + line` (App.tsx
line 116): append a suffix to the content of the last dialogue. -/
def appendToLast : List Dialog → Str → List Dialog
  | [], _ => []
  | [d], s => [{ d with content := d.content ++ s }]
  | d :: d' :: ds, s => d :: appendToLast (d' :: ds) s

/-- One iteration of the `for (const line of dialogueLines)` loop in
`parseDialogue` (App.tsx lines 99–121).  The state is the accumulated
dialogue list together with the diagnostics printed so far. -/
def parseStep (users : List Character) (st : List Dialog × List Str) (line : Str) :
    List Dialog × List Str :=
  match matchSpeaker line with
  | some (speaker, content) =>
    let span := getSpanFromLine line
    let ciSpeaker := toLowerStr speaker
    match findUser users ciSpeaker with
    | some user => (st.1 ++ [{ user := user, span := span, content := content }], st.2)
    | none => (st.1, st.2 ++ [unknownSpeakerMsg ciSpeaker])
  | none =>
    if st.1.isEmpty then
      (st.1, st.2 ++ [invalidLineMsg line])
    else
      (appendToLast st.1 ('\n' :: line), st.2)

/-- `dialogueString.split('\n')`: split on every newline, keeping empty
pieces; the empty string yields `[""]`. -/
def splitNl : Str → List Str
  | [] => [[]]
  | c :: cs =>
    if c = '\n' then [] :: splitNl cs
    else match splitNl cs with
      | [] => [[c]]
      | l :: ls => (c :: l) :: ls

/-- The loop of `parseDialogue` over an explicit list of lines, returning
the dialogues and the diagnostics. -/
def parseLines (users : List Character) (lines : List Str) : List Dialog × List Str :=
  lines.foldl (parseStep users) ([], [])

/-- `parseDialogue` (App.tsx lines 95–124): split the raw text on
newlines, run the loop, return the accumulated dialogues. -/
def parseDialogue (users : List Character) (dialogueString : Str) : List Dialog :=
  (parseLines users (splitNl dialogueString)).1

/-- The diagnostics (`console.error` messages) produced by the same run of
`parseDialogue`. -/
def parseDiagnostics (users : List Character) (dialogueString : Str) : List Str :=
  (parseLines users (splitNl dialogueString)).2

/-- Decimal rendering of a JavaScript number holding an integer, as
interpolated by a template literal. -/
def intToStr (n : Int) : Str := (toString n).toList

/-- `getScriptIncrementer` (App.tsx lines 130–132). -/
def getScriptIncrementer (sd : ScriptData) : Str :=
  "scoreboard players add @s ".toList ++ sd.name ++ " ".toList ++
    intToStr sd.initialCounter ++ "\n".toList

/-- `getSingleDialog` (App.tsx lines 134–137). -/
def getSingleDialog (sd : ScriptData) (incrementer : Int) (dialog : Dialog) : Str :=
  "execute if score @s ".toList ++ sd.name ++ " matches ".toList ++
    intToStr incrementer ++ " run tellraw @a [".toList ++ dialog.user.contentPrefix ++
    ", \x7b\"text\":\"".toList ++ dialog.content ++
    "\", \"italic\": true, \"color\":\"gray\", \"bold\": \"false\"\x7d]\n".toList

/-- `getScriptFinalStatement` (App.tsx lines 139–141). -/
def getScriptFinalStatement (sd : ScriptData) (incrementer : Int) : Str :=
  "execute if score @s ".toList ++ sd.name ++ " matches ".toList ++
    intToStr incrementer ++ ".. run scoreboard players set @s ".toList ++
    sd.name ++ " -1\n".toList

/-- The `for` loop of `generateDialogues` (App.tsx lines 156–159): the
state is the script text accumulated so far together with the running
`conversationSpan`. -/
def generateLoop (sd : ScriptData) (st : Str × Int) (dialog : Dialog) : Str × Int :=
  (st.1 ++ getSingleDialog sd st.2 dialog, st.2 + dialog.span)

/-- `generateDialogues` (App.tsx lines 152–163): increment statement, one
conditional `tellraw` per dialogue at the running threshold starting from
`initialSpan`, and the closing statement at the final threshold. -/
def generateDialogues (sd : ScriptData) (dialogues : List Dialog) : Str :=
  let initialScriptContent := getScriptIncrementer sd
  let body := dialogues.foldl (generateLoop sd) ([], sd.initialSpan)
  initialScriptContent ++ body.1 ++ getScriptFinalStatement sd body.2

/-- Sum of the `span` fields of a dialogue list. -/
def sumSpans (ds : List Dialog) : Int := (ds.map Dialog.span).sum

/-- What `parseDialogue` extracts from a single line when it produces a
dialogue: the resolved user and the computed span (`none` when the line is
a continuation line or its speaker is unknown). -/
def recognizeLine (users : List Character) (line : Str) : Option (Character × Int) :=
  match matchSpeaker line with
  | some (speaker, _) =>
    match findUser users (toLowerStr speaker) with
    | some user => some (user, getSpanFromLine line)
    | none => none
  | none => none

/-- The character used in the spec's end-to-end example. -/
def aliceChar : Character :=
  { name := "Alice".toList, scriptPrefix := "A".toList, contentPrefix := "Alice: ".toList }

@[simp] theorem sumSpans_nil : sumSpans [] = 0 := rfl

@[simp] theorem sumSpans_cons (d : Dialog) (ds : List Dialog) :
    sumSpans (d :: ds) = d.span + sumSpans ds := by
  simp [sumSpans]

theorem appendToLast_snoc (ds : List Dialog) (d : Dialog) (s : Str) :
    appendToLast (ds ++ [d]) s = ds ++ [{ d with content := d.content ++ s }] := by
  induction ds with
  | nil => rfl
  | cons d' tl ih =>
    cases tl with
    | nil => rfl
    | cons d'' tl' => simpa [appendToLast] using ih

theorem appendToLast_map_userSpan (ds : List Dialog) (s : Str) :
    (appendToLast ds s).map (fun d => (d.user, d.span)) =
      ds.map (fun d => (d.user, d.span)) := by
  induction ds with
  | nil => rfl
  | cons d tl ih =>
    cases tl with
    | nil => rfl
    | cons d' tl' => simpa [appendToLast] using ih

theorem parseLines_map_userSpan (users : List Character) :
    ∀ (ls : List Str) (ds : List Dialog) (gs : List Str),
      ((ls.foldl (parseStep users) (ds, gs)).1).map (fun d => (d.user, d.span)) =
        ds.map (fun d => (d.user, d.span)) ++ ls.filterMap (recognizeLine users) := by
  intro ls
  induction ls with
  | nil => intro ds gs; simp
  | cons line tl ih =>
    intro ds gs
    rw [List.foldl_cons]
    rcases hm : matchSpeaker line with _ | ⟨speaker, content⟩
    · have hrec : recognizeLine users line = none := by
        simp [recognizeLine, hm]
      by_cases hds : ds.isEmpty
      · simp [parseStep, hm, hds, ih, hrec]
      · simp [parseStep, hm, hds, ih, hrec, appendToLast_map_userSpan]
    · rcases hu : findUser users (toLowerStr speaker) with _ | user
      · have hrec : recognizeLine users line = none := by
          simp [recognizeLine, hm, hu]
        simp [parseStep, hm, hu, ih, hrec]
      · have hrec : recognizeLine users line = some (user, getSpanFromLine line) := by
          simp [recognizeLine, hm, hu]
        simp [parseStep, hm, hu, ih, hrec]

theorem matchSpeaker_some (line speaker content : Str)
    (hm : matchSpeaker line = some (speaker, content)) :
    line = speaker ++ ':' :: ' ' :: content ∧ speaker ≠ [] ∧
      ∀ c ∈ speaker, isAsciiAlpha c = true := by
  unfold matchSpeaker at hm
  split at hm
  case _ content' heq =>
    split at hm
    · exact absurd hm (by simp)
    case _ hcond =>
      rw [Option.some_inj, Prod.mk.injEq] at hm
      obtain ⟨htag, hcontent⟩ := hm
      have hline := List.takeWhile_append_dropWhile (p := isAsciiAlpha) (l := line)
      refine ⟨?_, ?_, ?_⟩
      · rw [← hline, heq, htag, hcontent]
      · intro hnil
        have hempty : (line.takeWhile isAsciiAlpha).isEmpty = true := by
          rw [htag, hnil]; rfl
        simp [hempty] at hcond
      · intro c hc
        rw [← htag] at hc
        exact List.mem_takeWhile_imp hc
  case _ => exact absurd hm (by simp)

theorem isAsciiAlpha_not_whitespace (c : Char) (h : isAsciiAlpha c = true) :
    c.isWhitespace = false := by
  by_contra hw
  rw [Bool.not_eq_false] at hw
  have : c = ' ' ∨ c = '\t' ∨ c = '\r' ∨ c = '\n' := by
    simpa [Char.isWhitespace, or_assoc] using hw
  rcases this with h' | h' | h' | h' <;> rw [h'] at h <;> simp [isAsciiAlpha] at h

theorem dropWhile_append_stop (p : Char → Bool) (m : Char) (hm : p m = false) :
    ∀ xs ys : Str, List.dropWhile p (xs ++ m :: ys) = List.dropWhile p xs ++ m :: ys := by
  intro xs ys
  induction xs with
  | nil => simp [List.dropWhile, hm]
  | cons x tl ih =>
    by_cases hx : p x
    · simpa [List.dropWhile, hx] using ih
    · simp [List.dropWhile, hx]

theorem countAlphaRuns_alpha_prefix :
    ∀ (sp : Str) (q : Str) (b : Bool), sp ≠ [] → (∀ c ∈ sp, isAsciiAlpha c = true) →
      countAlphaRuns b (sp ++ q) =
        (if b then 0 else 1) + countAlphaRuns true q := by
  intro sp
  induction sp with
  | nil => intro q b h; exact absurd rfl h
  | cons c tl ih =>
    intro q b _ halpha
    have hc : isAsciiAlpha c = true := halpha c (by simp)
    cases tl with
    | nil => cases b <;> simp [countAlphaRuns, hc]
    | cons c' tl' =>
      have hstep := ih q true (by simp) (fun x hx => halpha x (by simp [hx]))
      have hcs : ∀ b' : Bool, countAlphaRuns b' ((c :: c' :: tl') ++ q) =
          (if isAsciiAlpha c && !b' then 1 else 0) +
            countAlphaRuns (isAsciiAlpha c) ((c' :: tl') ++ q) := fun _ => rfl
      cases b <;> rw [hcs, hc, hstep] <;> simp

theorem trimStr_speaker_line (sp ct : Str) (hne : sp ≠ [])
    (halpha : ∀ c ∈ sp, isAsciiAlpha c = true) :
    trimStr (sp ++ ':' :: ' ' :: ct) =
      sp ++ ':' :: (List.dropWhile Char.isWhitespace (ct.reverse ++ [' '])).reverse := by
  obtain ⟨c, tl, rfl⟩ : ∃ c tl, sp = c :: tl := by
    cases sp with
    | nil => exact absurd rfl hne
    | cons c tl => exact ⟨c, tl, rfl⟩
  have hcw : c.isWhitespace = false := isAsciiAlpha_not_whitespace c (halpha c (by simp))
  have h1 : List.dropWhile Char.isWhitespace ((c :: tl) ++ ':' :: ' ' :: ct) =
      (c :: tl) ++ ':' :: ' ' :: ct := by
    simp [List.dropWhile, hcw]
  have h2 : ((c :: tl) ++ ':' :: ' ' :: ct).reverse =
      (ct.reverse ++ [' ']) ++ ':' :: (c :: tl).reverse := by
    simp
  rw [trimStr, h1, h2, dropWhile_append_stop Char.isWhitespace ':' (by decide)]
  simp

theorem generate_foldl_spec (sd : ScriptData) :
    ∀ (ds : List Dialog) (t : Int) (acc : Str),
      ds.foldl (generateLoop sd) (acc, t) =
        (acc ++ (List.zipWith
            (fun i d => getSingleDialog sd (t + sumSpans (ds.take i)) d)
            (List.range ds.length) ds).flatten,
          t + sumSpans ds) := by
  intro ds
  induction ds with
  | nil => intro t acc; simp
  | cons d tl ih =>
    intro t acc
    rw [List.foldl_cons]
    show List.foldl (generateLoop sd) (acc ++ getSingleDialog sd t d, t + d.span) tl = _
    rw [ih]
    simp [List.range_succ_eq_map, List.zipWith_map_left, List.take_succ_cons, add_assoc]

theorem foldl_nonmatching (users : List Character) :
    ∀ (conts : List Str) (ds : List Dialog) (d : Dialog) (gs : List Str),
      (∀ l ∈ conts, matchSpeaker l = none) →
      conts.foldl (parseStep users) (ds ++ [d], gs) =
        (ds ++ [{ d with content := d.content ++ (conts.map (fun l => '\n' :: l)).flatten }],
          gs) := by
  intro conts
  induction conts with
  | nil => intro ds d gs _; simp
  | cons l tl ih =>
    intro ds d gs hc
    rw [List.foldl_cons]
    have hm := hc l (by simp)
    have hne : (ds ++ [d]).isEmpty = false := by simp
    have hstep : parseStep users (ds ++ [d], gs) l =
        (ds ++ [{ d with content := d.content ++ ('\n' :: l) }], gs) := by
      simp [parseStep, hm, hne, appendToLast_snoc]
    rw [hstep, ih ds _ gs (fun x hx => hc x (by simp [hx]))]
    simp

/-- Claim C1: for every `ScriptData` and dialogue sequence, `generateDialogues`
gates the `i`-th emitted `tellraw` statement (0-based) at threshold
`initialSpan + sum of the spans of the dialogues before index i`, and the
final closing statement uses threshold `initialSpan + sum of all spans`
followed by `..` and resets the objective's score to `-1`. -/
theorem generateDialogues_thresholds (sd : ScriptData) (ds : List Dialog) :
    generateDialogues sd ds =
      getScriptIncrementer sd ++
        (List.zipWith
          (fun i d => getSingleDialog sd (sd.initialSpan + sumSpans (ds.take i)) d)
          (List.range ds.length) ds).flatten ++
        ("execute if score @s ".toList ++ sd.name ++ " matches ".toList ++
          intToStr (sd.initialSpan + sumSpans ds) ++
          ".. run scoreboard players set @s ".toList ++ sd.name ++ " -1\n".toList) := by
  show getScriptIncrementer sd ++
      (ds.foldl (generateLoop sd) ([], sd.initialSpan)).1 ++
      getScriptFinalStatement sd (ds.foldl (generateLoop sd) ([], sd.initialSpan)).2 = _
  rw [generate_foldl_spec sd ds sd.initialSpan []]
  simp [getScriptFinalStatement]

/-- Claim C2: for every line that the parser recognizes as a speaker line,
the span of the resulting dialogue equals 4 times the number of maximal
runs of alphabetic characters in the entire trimmed line — the speaker tag
included, not just the content text. -/
theorem parseStep_span_whole_trimmed_line (users : List Character)
    (ds : List Dialog) (gs : List Str) (line speaker content : Str) (user : Character)
    (hm : matchSpeaker line = some (speaker, content))
    (hu : findUser users (toLowerStr speaker) = some user) :
    parseStep users (ds, gs) line =
      (ds ++ [{ user := user,
                span := (countAlphaRuns false
                  (trimStr (speaker ++ ':' :: ' ' :: content)) * 4 : Nat),
                content := content }], gs) := by
  obtain ⟨hline, -, -⟩ := matchSpeaker_some line speaker content hm
  simp [parseStep, hm, hu, getSpanFromLine, ← hline]

theorem parseStep_span_whole_trimmed_line_witness :
    matchSpeaker "A: Hello there".toList = some ("A".toList, "Hello there".toList) ∧
    findUser [aliceChar] (toLowerStr "A".toList) = some aliceChar ∧
    parseStep [aliceChar] ([], []) "A: Hello there".toList =
      ([{ user := aliceChar,
          span := (countAlphaRuns false
            (trimStr ("A".toList ++ ':' :: ' ' :: "Hello there".toList)) * 4 : Nat),
          content := "Hello there".toList }], []) :=
  ⟨by decide, by decide,
    parseStep_span_whole_trimmed_line [aliceChar] [] [] "A: Hello there".toList
      "A".toList "Hello there".toList aliceChar (by decide) (by decide)⟩

/-- Claim C3 (counterexample): with the roster of the spec's end-to-end
example, parsing `"A: Hello there"` does not produce a dialogue with span 8:
the code counts the three alphabetic runs `A`, `Hello`, `there` of the whole
line and multiplies by 4, giving span 12. -/
theorem example_parse_span_not_eight :
    parseDialogue [aliceChar] "A: Hello there".toList ≠
      [{ user := aliceChar, span := 8, content := "Hello there".toList }] := by
  decide

/-- Claim C3 (amended): with roster
`[{name: "Alice", scriptPrefix: "A", contentPrefix: "Alice: "}]`, parsing
`"A: Hello there"` yields exactly one dialogue whose user is Alice, whose
span is 12, and whose content is `"Hello there"`. -/
theorem example_parse_span_twelve :
    parseDialogue [aliceChar] "A: Hello there".toList =
      [{ user := aliceChar, span := 12, content := "Hello there".toList }] := by
  decide

/-- Claim C4: when a recognized speaker line is followed immediately by
lines that do not match the speaker pattern, the dialogue produced for it
ends up with its content followed by, for each continuation line in order,
a newline and that raw line; continuation lines never create new
dialogues (the dialogue list gains exactly the one entry). -/
theorem continuation_lines_append (users : List Character)
    (ds : List Dialog) (gs : List Str) (line speaker content : Str) (user : Character)
    (conts : List Str)
    (hm : matchSpeaker line = some (speaker, content))
    (hu : findUser users (toLowerStr speaker) = some user)
    (hc : ∀ l ∈ conts, matchSpeaker l = none) :
    conts.foldl (parseStep users) (parseStep users (ds, gs) line) =
      (ds ++ [{ user := user, span := getSpanFromLine line,
                content := content ++ (conts.map (fun l => '\n' :: l)).flatten }], gs) := by
  have hstep : parseStep users (ds, gs) line =
      (ds ++ [{ user := user, span := getSpanFromLine line, content := content }], gs) := by
    simp [parseStep, hm, hu]
  rw [hstep, foldl_nonmatching users conts ds _ gs hc]

theorem continuation_lines_append_witness :
    matchSpeaker "A: Hello".toList = some ("A".toList, "Hello".toList) ∧
    findUser [aliceChar] (toLowerStr "A".toList) = some aliceChar ∧
    (∀ l ∈ ["more text".toList], matchSpeaker l = none) ∧
    ["more text".toList].foldl (parseStep [aliceChar])
        (parseStep [aliceChar] ([], []) "A: Hello".toList) =
      ([{ user := aliceChar, span := getSpanFromLine "A: Hello".toList,
          content := "Hello".toList ++
            (["more text".toList].map (fun l => '\n' :: l)).flatten }], []) :=
  ⟨by decide, by decide, by decide,
    continuation_lines_append [aliceChar] [] [] "A: Hello".toList "A".toList
      "Hello".toList aliceChar ["more text".toList]
      (by decide) (by decide) (by decide)⟩

/-- Claim C5: `generateDialogues` applied to the empty dialogue sequence
with config `{name: "X", initialCounter: 1, initialSpan: 10}` returns
exactly the increment statement and the closing statement with threshold
equal to `initialSpan` unchanged. -/
theorem generate_empty_dialogues :
    generateDialogues { name := "X".toList, initialCounter := 1, initialSpan := 10 } [] =
      ("scoreboard players add @s X 1\nexecute if score @s X matches 10.. run scoreboard players set @s X -1\n").toList := by
  decide

/-- Claim C6: when a line matches the speaker pattern but its lower-cased
speaker tag equals no roster entry's lower-cased `scriptPrefix`, the parser
drops the line (the dialogue list entering the remaining lines is
unchanged), appends one diagnostic, and continues with the remaining
lines. -/
theorem unknown_speaker_dropped (users : List Character)
    (ds : List Dialog) (gs : List Str) (line speaker content : Str) (rest : List Str)
    (hm : matchSpeaker line = some (speaker, content))
    (hu : findUser users (toLowerStr speaker) = none) :
    (line :: rest).foldl (parseStep users) (ds, gs) =
      rest.foldl (parseStep users) (ds, gs ++ [unknownSpeakerMsg (toLowerStr speaker)]) := by
  rw [List.foldl_cons]
  congr 1
  simp [parseStep, hm, hu]

theorem unknown_speaker_dropped_witness :
    matchSpeaker "B: x".toList = some ("B".toList, "x".toList) ∧
    findUser [] (toLowerStr "B".toList) = none ∧
    ["B: x".toList].foldl (parseStep []) (([], []) : List Dialog × List Str) =
      ([] : List Str).foldl (parseStep [])
        ([], [unknownSpeakerMsg (toLowerStr "B".toList)]) :=
  ⟨by decide, by decide,
    unknown_speaker_dropped [] [] [] "B: x".toList "B".toList "x".toList []
      (by decide) (by decide)⟩

/-- Claim C7: `generateDialogues` is deterministic and idempotent — its
output depends on nothing outside the pair `(config, dialogues)`, so two
runs on identical inputs produce identical output strings. -/
theorem generate_deterministic (sd1 sd2 : ScriptData) (ds1 ds2 : List Dialog)
    (hsd : sd1 = sd2) (hds : ds1 = ds2) :
    generateDialogues sd1 ds1 = generateDialogues sd2 ds2 := by
  rw [hsd, hds]

theorem generate_deterministic_witness :
    generateDialogues { name := "X".toList, initialCounter := 1, initialSpan := 10 } [] =
      generateDialogues { name := "X".toList, initialCounter := 1, initialSpan := 10 } [] :=
  generate_deterministic _ _ _ _ rfl rfl

/-- Claim C8: speaker resolution is case-insensitive — two recognized lines
whose speaker tags agree after lower-casing and that carry the same content
are parsed identically (same resolved character, same span, same content),
because both the tag and each roster `scriptPrefix` are compared after
lower-casing. -/
theorem speaker_resolution_case_insensitive (users : List Character)
    (ds : List Dialog) (gs : List Str) (l1 l2 speaker1 speaker2 content : Str)
    (h1 : matchSpeaker l1 = some (speaker1, content))
    (h2 : matchSpeaker l2 = some (speaker2, content))
    (hcase : toLowerStr speaker1 = toLowerStr speaker2) :
    parseStep users (ds, gs) l1 = parseStep users (ds, gs) l2 := by
  obtain ⟨hl1, hne1, ha1⟩ := matchSpeaker_some _ _ _ h1
  obtain ⟨hl2, hne2, ha2⟩ := matchSpeaker_some _ _ _ h2
  have hspan : getSpanFromLine l1 = getSpanFromLine l2 := by
    unfold getSpanFromLine
    rw [hl1, hl2, trimStr_speaker_line _ _ hne1 ha1, trimStr_speaker_line _ _ hne2 ha2,
      countAlphaRuns_alpha_prefix _ _ false hne1 ha1,
      countAlphaRuns_alpha_prefix _ _ false hne2 ha2]
  simp [parseStep, h1, h2, hcase, hspan]

theorem speaker_resolution_case_insensitive_witness :
    matchSpeaker "a: Hi".toList = some ("a".toList, "Hi".toList) ∧
    matchSpeaker "A: Hi".toList = some ("A".toList, "Hi".toList) ∧
    toLowerStr "a".toList = toLowerStr "A".toList ∧
    parseStep [aliceChar] ([], []) "a: Hi".toList =
      parseStep [aliceChar] ([], []) "A: Hi".toList :=
  ⟨by decide, by decide, by decide,
    speaker_resolution_case_insensitive [aliceChar] [] [] "a: Hi".toList
      "A: Hi".toList "a".toList "A".toList "Hi".toList
      (by decide) (by decide) (by decide)⟩

/-- Claim C9: `parseDialogue` is order-preserving — the `(user, span)`
records of the returned dialogues are exactly those of the recognized
source lines, in the same relative order as the lines that produced
them. -/
theorem parse_order_preserving (users : List Character) (s : Str) :
    (parseDialogue users s).map (fun d => (d.user, d.span)) =
      (splitNl s).filterMap (recognizeLine users) := by
  unfold parseDialogue parseLines
  simpa using parseLines_map_userSpan users (splitNl s) [] []

/-- Claim C10: every dialogue produced by `parseDialogue` has a span that
is a positive multiple of 4 (in particular span ≥ 4): a line only becomes a
dialogue if it matches the speaker pattern, so the trimmed line contains at
least one alphabetic run — the speaker tag itself. -/
theorem parsed_span_positive_multiple_of_four (users : List Character) (s : Str)
    (d : Dialog) (hd : d ∈ parseDialogue users s) :
    ∃ k : Nat, 0 < k ∧ d.span = 4 * (k : Int) := by
  have hmem : (d.user, d.span) ∈ (parseDialogue users s).map (fun d => (d.user, d.span)) :=
    List.mem_map_of_mem _ hd
  have hchar : (parseDialogue users s).map (fun d => (d.user, d.span)) =
      (splitNl s).filterMap (recognizeLine users) := by
    unfold parseDialogue parseLines
    simpa using parseLines_map_userSpan users (splitNl s) [] []
  rw [hchar] at hmem
  obtain ⟨line, _, hrec⟩ := List.mem_filterMap.mp hmem
  unfold recognizeLine at hrec
  split at hrec
  case _ speaker content' hm =>
    split at hrec
    case _ user hu =>
      rw [Option.some_inj, Prod.mk.injEq] at hrec
      obtain ⟨-, hspan⟩ := hrec
      obtain ⟨hline, hne, halpha⟩ := matchSpeaker_some _ _ _ hm
      refine ⟨countAlphaRuns false (trimStr line), ?_, ?_⟩
      · rw [hline, trimStr_speaker_line _ _ hne halpha,
          countAlphaRuns_alpha_prefix _ _ false hne halpha]
        simp
      · rw [← hspan]
        unfold getSpanFromLine
        push_cast
        ring
    case _ => exact absurd hrec (by simp)
  case _ => exact absurd hrec (by simp)

theorem parsed_span_positive_multiple_of_four_witness :
    ∃ k : Nat, 0 < k ∧
      (Dialog.mk aliceChar 12 "Hello there".toList).span = 4 * (k : Int) :=
  parsed_span_positive_multiple_of_four [aliceChar] "A: Hello there".toList _ (by decide)

end Dpdg
